import Mathlib

set_option maxRecDepth 10000

/-!
Verification of the starkware-monorepo specification claims.

The `starkware-crypto` implementation itself is not among the available
source files (only its test suite is), so the cryptographic layer below is
modelled from the specification, with the repository's literal test vectors
used to validate the model.  The provider layer (`transferErc721`,
`quantizeAmount` call sites) is embedded from
`packages/starkware-provider/src/provider.ts`.
-/

namespace StarkwareCrypto

/-- Modelled from the spec: §4.1/§4.7 of the missing `starkware-crypto`
implementation — the order `n` of the group generated by the base point.
Scalars and private keys live in `[1, n)`. -/
def curveOrder : Nat :=
  3618502788666131213697322783095070105526743751716087489154079457884512865583

/-- Modelled from the spec: §4.7 — the "fixed maximum value derived from the
curve order" bounding digests, `r` and `w` during signing/verification
(`2 ^ 251`, the `maxEcdsaVal` constant exported by the missing module and
referenced by the test suite). -/
def maxEcdsaVal : Nat := 2 ^ 251

/-- Modelled from the spec: §4.1 — the prime modulus `p` of the fixed field
(`2^251 + 17·2^192 + 1`). -/
def fieldPrime : Nat :=
  3618502788666131213697322783095070105623107215331596699973092056135872020481

/-- Modelled from the spec: §4.1 — coefficient `a` of the fixed curve
`y^2 = x^3 + a*x + b`. -/
def curveA : Nat := 1

/-- Modelled from the spec: §4.1 — coefficient `b` of the fixed curve. -/
def curveB : Nat :=
  3141592653589793238462643383279502884197169399375105820974944592307816406665

/-- Modelled from the spec: §4.1 — x-coordinate of the fixed generator `G`. -/
def genX : Nat :=
  874739451078007766457464989774322083649278607533249481151382481072868806602

/-- Modelled from the spec: §4.1 — y-coordinate of the fixed generator `G`. -/
def genY : Nat :=
  152666792071518830868575557812948353041420400780739481342941381225525861407

/-- One step sequence of the extended Euclid algorithm, tracking
Bezout coefficients of the second argument.  `modInvAux fuel r0 r1 t0 t1`
maintains `r0 ≡ t0 * a` and `r1 ≡ t1 * a (mod m)` for the `a`, `m` of
`modInv`; the fuel argument only forces structural termination. -/
def modInvAux : Nat → Nat → Nat → Int → Int → Int
  | _, r0, 0, t0, _ => if r0 = 1 then t0 else 0
  | 0, _, _, _, _ => 0
  | fuel + 1, r0, r1 + 1, t0, t1 =>
      modInvAux fuel (r1 + 1) (r0 % (r1 + 1)) t1 (t0 - ((r0 / (r1 + 1) : Nat) : Int) * t1)

/-- Modelled from the spec: §4.7 — the modular inverse used for `k⁻¹` and
`w = s⁻¹ mod n`; returns `0` when the inverse does not exist. -/
def modInv (a m : Nat) : Nat :=
  ((modInvAux (m + 1) m (a % m) 0 1).emod (m : Int)).toNat

/-- Modelled from the spec: §7 — the closed error-kind taxonomy surfaced by
the core as typed failures. -/
inductive CryptoError where
  | InvalidMessageHashLength
  | InvalidRLength
  | InvalidSLength
  | InvalidWLength
  | InvalidPublicKey
  | SigningRetryExhausted
  | NonIntegerQuantization
  deriving DecidableEq, Repr

/-- Result of a fallible core computation: a value or a typed failure
(modelling the implementation's thrown errors). -/
inductive CResult (α : Type) where
  | ok : α → CResult α
  | err : CryptoError → CResult α
  deriving DecidableEq, Repr

/-- Modelled from the spec: §3 — a signature is the pair `(r, s)`. -/
structure Signature where
  r : Nat
  s : Nat
  deriving DecidableEq, Repr

/-- The raw point operations of the fixed curve: addition, the point at
infinity, and the x-coordinate projection.  Signing and verification are
written over this interface; the concrete instantiation is `starkCurveOps`
below. -/
structure CurveOps (Pt : Type) where
  add : Pt → Pt → Pt
  zero : Pt
  xcoord : Pt → Nat

/-- Double-and-add scalar multiplication (spec §4.1); the fuel argument only
forces structural termination and is in practice at least the bit length of
the scalar. -/
def scalarMulAux {Pt : Type} (ops : CurveOps Pt) : Nat → Nat → Pt → Pt
  | 0, _, _ => ops.zero
  | fuel + 1, k, x =>
    if k = 0 then ops.zero
    else
      if k % 2 = 1 then ops.add x (scalarMulAux ops fuel (k / 2) (ops.add x x))
      else scalarMulAux ops fuel (k / 2) (ops.add x x)

/-- Modelled from the spec: §4.1 — scalar multiplication `k * x`. -/
def scalarMul {Pt : Type} (ops : CurveOps Pt) (k : Nat) (x : Pt) : Pt :=
  scalarMulAux ops (k + 1) k x

/-- Modelled from the spec: §3 — the public key is `privateKey * G`. -/
def publicKeyOf {Pt : Type} (ops : CurveOps Pt) (G : Pt) (privateKey : Nat) : Pt :=
  scalarMul ops privateKey G

/-- Modelled from the spec: §4.7 — the fixed bound on the nonce-retry loop
(`SigningRetryExhausted` beyond it, "practically unreachable"). -/
def signRetryBound : Nat := 100

/-- Modelled from the spec: §4.7 — the signing retry loop.  At each attempt
the deterministic nonce procedure `nonceOf` (a fixed function of the digest
and the attempt counter) yields `k`; `r` is the x-coordinate of `k*G`
reduced mod the order and `s = k⁻¹ * (digest + r*privateKey) mod n`; the
attempt is retried if `r = 0` or `s = 0`. -/
def signAttempts {Pt : Type} (ops : CurveOps Pt) (G : Pt) (nonceOf : Nat → Nat → Nat)
    (privateKey digest : Nat) : Nat → Nat → CResult Signature
  | _, 0 => CResult.err CryptoError.SigningRetryExhausted
  | attempt, fuel + 1 =>
    if ops.xcoord (scalarMul ops (nonceOf digest attempt) G) % curveOrder = 0
        ∨ modInv (nonceOf digest attempt) curveOrder *
            (digest + ops.xcoord (scalarMul ops (nonceOf digest attempt) G) % curveOrder * privateKey)
            % curveOrder = 0 then
      signAttempts ops G nonceOf privateKey digest (attempt + 1) fuel
    else
      CResult.ok
        ⟨ops.xcoord (scalarMul ops (nonceOf digest attempt) G) % curveOrder,
          modInv (nonceOf digest attempt) curveOrder *
            (digest + ops.xcoord (scalarMul ops (nonceOf digest attempt) G) % curveOrder * privateKey)
            % curveOrder⟩

/-- Modelled from the spec: §4.7 — `sign(privateKey, digest) -> (r, s)`,
with the digest magnitude bound enforced up front. -/
def sign {Pt : Type} (ops : CurveOps Pt) (G : Pt) (nonceOf : Nat → Nat → Nat)
    (privateKey digest : Nat) : CResult Signature :=
  if maxEcdsaVal ≤ digest then CResult.err CryptoError.InvalidMessageHashLength
  else signAttempts ops G nonceOf privateKey digest 0 signRetryBound

/-- Modelled from the spec: §4.7 — `verify(publicKey, digest, signature)`.
Before any curve math the magnitude bounds are enforced: the digest must be
below `maxEcdsaVal`, `r` in `[1, maxEcdsaVal)`, `s` in `[1, n)` and
`w = s⁻¹ mod n` in `[1, maxEcdsaVal)`, each violation failing with its named
condition.  Then the curve combination `digest*w*G + r*w*publicKey` must
reconstruct `r` (compared mod the order); a mismatch returns the boolean
`false`, not an error. -/
def verify {Pt : Type} (ops : CurveOps Pt) (G : Pt) (publicKey : Pt)
    (digest : Nat) (sig : Signature) : CResult Bool :=
  match sig with
  | ⟨r, s⟩ =>
    if maxEcdsaVal ≤ digest then CResult.err CryptoError.InvalidMessageHashLength
    else if ¬ (1 ≤ r ∧ r < maxEcdsaVal) then CResult.err CryptoError.InvalidRLength
    else if ¬ (1 ≤ s ∧ s < curveOrder) then CResult.err CryptoError.InvalidSLength
    else if ¬ (1 ≤ modInv s curveOrder ∧ modInv s curveOrder < maxEcdsaVal) then
      CResult.err CryptoError.InvalidWLength
    else
      CResult.ok (decide (ops.xcoord
        (ops.add (scalarMul ops (digest * modInv s curveOrder % curveOrder) G)
          (scalarMul ops (r * modInv s curveOrder % curveOrder) publicKey))
        % curveOrder = r))

/-- The canonical operations of an additive commutative group, used to state
the algebraic sign/verify round trip over any group interpretation of the
curve. -/
def groupOps (P : Type) [AddCommGroup P] (xc : P → Nat) : CurveOps P :=
  { add := fun a b => a + b, zero := 0, xcoord := xc }

/-- Multiplication in the fixed prime field. -/
def pmul (a b : Nat) : Nat := a * b % fieldPrime

/-- Subtraction in the fixed prime field (operands canonicalized). -/
def psub (a b : Nat) : Nat := (a % fieldPrime + fieldPrime - b % fieldPrime) % fieldPrime

/-- Modelled from the spec: §4.1 — a curve point in Jacobian projective
coordinates `(X, Y, Z)` (affine `x = X/Z^2`, `y = Y/Z^3`); `Z = 0` is the
point at infinity. -/
def ECPoint : Type := Nat × Nat × Nat

/-- The Jacobian point at infinity. -/
def pointInfinity : ECPoint := (1, 1, 0)

/-- Modelled from the spec: §4.1 — point doubling on the fixed curve, in
Jacobian coordinates. -/
def pointDouble (P : ECPoint) : ECPoint :=
  match P with
  | (x1, y1, z1) =>
    if z1 = 0 ∨ y1 = 0 then pointInfinity
    else
      let yy := pmul y1 y1
      let sv := pmul 4 (pmul x1 yy)
      let zz := pmul z1 z1
      let m := (pmul 3 (pmul x1 x1) + pmul curveA (pmul zz zz)) % fieldPrime
      let x3 := psub (pmul m m) (pmul 2 sv)
      (x3, psub (pmul m (psub sv x3)) (pmul 8 (pmul yy yy)), pmul 2 (pmul y1 z1))

/-- Modelled from the spec: §4.1 — point addition on the fixed curve, in
Jacobian coordinates. -/
def pointAdd (P Q : ECPoint) : ECPoint :=
  match P, Q with
  | (x1, y1, z1), (x2, y2, z2) =>
    if z1 = 0 then Q
    else if z2 = 0 then P
    else
      let z1z1 := pmul z1 z1
      let z2z2 := pmul z2 z2
      let u1 := pmul x1 z2z2
      let u2 := pmul x2 z1z1
      let s1 := pmul y1 (pmul z2 z2z2)
      let s2 := pmul y2 (pmul z1 z1z1)
      if u1 = u2 then
        if s1 = s2 then pointDouble P else pointInfinity
      else
        let h := psub u2 u1
        let rv := psub s2 s1
        let hh := pmul h h
        let hhh := pmul h hh
        let v := pmul u1 hh
        let x3 := psub (psub (pmul rv rv) hhh) (pmul 2 v)
        (x3, psub (pmul rv (psub v x3)) (pmul s1 hhh), pmul h (pmul z1 z2))

/-- Modelled from the spec: §4.1 — the affine x-coordinate of a Jacobian
point (conventionally `0` for the point at infinity). -/
def pointX (P : ECPoint) : Nat :=
  match P with
  | (x, _, z) => if z = 0 then 0 else pmul x (modInv (pmul z z) fieldPrime)

/-- Modelled from the spec: §4.1 — the affine y-coordinate of a Jacobian
point (conventionally `0` for the point at infinity). -/
def pointY (P : ECPoint) : Nat :=
  match P with
  | (_, y, z) => if z = 0 then 0 else pmul y (modInv (pmul z (pmul z z)) fieldPrime)

/-- Modelled from the spec: §4.1 — the concrete point operations of the
fixed curve. -/
def starkCurveOps : CurveOps ECPoint :=
  { add := pointAdd
    zero := pointInfinity
    xcoord := pointX }

/-- Modelled from the spec: §4.1 — the fixed generator as a concrete point. -/
def starkGen : ECPoint := (genX, genY, 1)

/-- The private key of the "should sign all message hash lengths" test of
the repository's crypto test suite. -/
def testPrivateKey : Nat :=
  0x2dccce1da22003777062ee0870e9881b460a8b7eca276870f57c601f182136c

/-- The 61-hex-digit message hash of that test. -/
def testMsgHash : Nat :=
  0xc465dd6b1bbffdb05442eb17f5ca38ad1aa78a6f56bf4415bdee219114a47

/-- The expected signature `r` for `testMsgHash` in that test. -/
def testR : Nat :=
  0x5f496f6f210b5810b2711c74c15c05244dad43d18ecbbdbe6ed55584bc3b0a2

/-- The expected signature `s` for `testMsgHash` in that test. -/
def testS : Nat :=
  0x4e8657b153787f741a67c0666bad6426c3741b478c8eaa3155196fc571416f3

/-- The public key of `testPrivateKey`. -/
def testPub : ECPoint := publicKeyOf starkCurveOps starkGen testPrivateKey

/-- The lowercase hex digit character for `k < 16`. -/
def hexDigit (k : Nat) : Char :=
  if k < 10 then Char.ofNat (48 + k) else Char.ofNat (87 + k)

/-- The hex digits of `k`, most significant first (empty for `0`); the fuel
argument only forces structural termination. -/
def hexDigitsAux : Nat → Nat → List Char
  | 0, _ => []
  | fuel + 1, k => if k = 0 then [] else hexDigitsAux fuel (k / 16) ++ [hexDigit (k % 16)]

/-- `k` rendered as a lowercase hex string zero-padded to `width` digits. -/
def padHex (width k : Nat) : String :=
  ⟨List.replicate (width - (hexDigitsAux (k + 1) k).length) '0' ++ hexDigitsAux (k + 1) k⟩

/-- Modelled from the spec: §4.7/§9 — a signature as produced by the signer
additionally carries a recovery parameter (0 or 1). -/
structure SignatureWithRecovery where
  r : Nat
  s : Nat
  recoveryParam : Nat
  deriving DecidableEq, Repr

/-- Modelled from the spec: §4.7 serialization together with §9's note that
the 65-byte literal test vectors are the ground truth for the byte layout:
`r` and `s` each zero-padded to 32 bytes, followed by a single recovery
byte `0x1b + recoveryParam`. -/
def serializeSignature (sig : SignatureWithRecovery) : String :=
  "0x" ++ padHex 64 sig.r ++ padHex 64 sig.s ++ padHex 2 (27 + sig.recoveryParam)

/-- The serialization described by §4.7's words alone (the claim under
test): the fixed-width concatenation of `r` and `s` with no additional
bytes. -/
def serializeSignatureSpec (r s : Nat) : String :=
  "0x" ++ padHex 64 r ++ padHex 64 s

/-- `r` of the literal ETH transfer signature vector of the test suite. -/
def ethSigR : Nat :=
  0x01df4e7bbad23da5e5266c2d724b5c892c9cc25cdb8a5c3371bac53013f3d527

/-- `s` of the literal ETH transfer signature vector of the test suite. -/
def ethSigS : Nat :=
  0x0715136cb5e9bf1f2733885d98cebded918e80f130ec85506e2779d364dd83a8

/-- `r` of the literal ERC20 transfer signature vector of the test suite. -/
def erc20SigR : Nat :=
  0x00557b2fcb1a60536a4d2655b2c597d03607c44c7d7cb5afc3bc26a7750af57b

/-- `s` of the literal ERC20 transfer signature vector of the test suite. -/
def erc20SigS : Nat :=
  0x006880b2e5857a31df9387071534e1459017c7da0608597fca6f64f0b82d9c40

/-- The x-coordinate of the key-derivation test vector's public key. -/
def pubKeyX : Nat :=
  0x042582cfcb098a503562acd1325922799c9cebdf9249c26a41bd04007997f2eb

/-- The y-coordinate of the key-derivation test vector's public key. -/
def pubKeyY : Nat :=
  0x03b73cdb07f399130ea38ee860c3b708c92165df37b1690d7e0af1678ecdaff8

/-- Modelled from the spec: §4.4 — compress: a parity tag (2 for even `y`,
3 for odd) together with the x-coordinate. -/
def compress (pk : Nat × Nat) : Nat × Nat :=
  (if pk.2 % 2 = 0 then 2 else 3, pk.1)

/-- Modelled from the spec: §4.4 — decompress, parameterized by the modular
square-root primitive `sqrtFn` the implementation delegates to: recover `y`
from `y^2 = x^3 + a*x + b (mod p)` and select the square root matching the
tag's parity; a malformed tag or a non-residue fails with
`InvalidPublicKey`. -/
def decompress (sqrtFn : Nat → Option Nat) (c : Nat × Nat) : CResult (Nat × Nat) :=
  if c.1 ≠ 2 ∧ c.1 ≠ 3 then CResult.err CryptoError.InvalidPublicKey
  else
    match sqrtFn ((pmul (pmul c.2 c.2) c.2 + pmul curveA c.2 + curveB) % fieldPrime) with
    | none => CResult.err CryptoError.InvalidPublicKey
    | some y0 =>
      if y0 % 2 = (if c.1 = 2 then 0 else 1) then CResult.ok (c.2, y0)
      else CResult.ok (c.2, fieldPrime - y0)

/-- Modelled from the spec: §4.5 — `quantizeAmount` divides the amount by
the quantum and fails with `NonIntegerQuantization` when the division is
not exact; quantization is never rounded. -/
def quantizeAmount (amount quantum : Nat) : CResult Nat :=
  if amount % quantum = 0 then CResult.ok (amount / quantum)
  else CResult.err CryptoError.NonIntegerQuantization

/-- The numeric value of a hex digit character (0 for other characters). -/
def hexCharVal (c : Char) : Nat :=
  if '0' ≤ c ∧ c ≤ '9' then c.toNat - '0'.toNat
  else if 'a' ≤ c ∧ c ≤ 'f' then c.toNat - 'a'.toNat + 10
  else if 'A' ≤ c ∧ c ≤ 'F' then c.toNat - 'A'.toNat + 10
  else 0

/-- Big-endian accumulation of hex digits. -/
def parseHexAux (acc : Nat) : List Char → Nat
  | [] => acc
  | c :: rest => parseHexAux (acc * 16 + hexCharVal c) rest

/-- Modelled from the spec: §6 — numeric values cross the library boundary
as hex strings and are interpreted numerically. -/
def parseHex (h : String) : Nat := parseHexAux 0 h.data

/-- Modelled from the spec: §4.7/§6 — signing a digest given as a hex
string. -/
def signHex {Pt : Type} (ops : CurveOps Pt) (G : Pt) (nonceOf : Nat → Nat → Nat)
    (privateKey : Nat) (msgHash : String) : CResult Signature :=
  sign ops G nonceOf privateKey (parseHex msgHash)

/-- Whether a fallible result is a success. -/
def isOk {α : Type} : CResult α → Bool
  | CResult.ok _ => true
  | CResult.err _ => false

/-- An `s` value whose derived `w = s⁻¹ mod n` is exactly `maxEcdsaVal + 1`
(used to exhibit the `InvalidWLength` condition). -/
def wOverflowS : Nat := modInv (maxEcdsaVal + 1) curveOrder

/-- `testPub` with its affine x-coordinate incremented by one — the
public-key tampering applied by the repository's "should not verify
invalid signatures" test. -/
def testPubTampered : ECPoint := (pointX testPub + 1, pointY testPub, 1)

end StarkwareCrypto

namespace StarkwareProvider

/-- The asset type tags appearing in `provider.ts`. -/
inductive AssetTypeTag where
  | ETH
  | ERC20
  | ERC721
  deriving DecidableEq, Repr

/-- The `data` field of an asset object as constructed in `provider.ts`
(each transfer variant populates a subset of the fields). -/
structure AssetData where
  quantum : Option String
  tokenAddress : Option String
  tokenId : Option String
  deriving DecidableEq, Repr

/-- An asset object `{ type, data }` as constructed in `provider.ts`. -/
structure Asset where
  type : AssetTypeTag
  data : AssetData
  deriving DecidableEq, Repr

/-- A transfer endpoint `{ starkKey, vaultId }` (`provider.ts`). -/
structure TransferSide where
  starkKey : String
  vaultId : String
  deriving DecidableEq, Repr

/-- The `TransferParams` record passed to `StarkwareProvider.transfer`
(`provider.ts` line 944); `fromSide`/`toSide` embed the TS fields
`from`/`to`. -/
structure TransferInput where
  fromSide : TransferSide
  toSide : TransferSide
  asset : Asset
  amount : Option String
  nonce : String
  expirationTimestamp : String
  condition : Option String
  deriving DecidableEq, Repr

/-- The `TransferErc721Params` input of `StarkwareProvider.transferErc721`
(`provider.ts` line 1040); `toSide` embeds the TS field `to`. -/
structure TransferErc721Params where
  vaultId : String
  toSide : TransferSide
  tokenAddress : String
  tokenId : String
  nonce : String
  expirationTimestamp : String
  condition : Option String
  deriving DecidableEq, Repr

/-- The exact `transfer` request record that `transferErc721` constructs
and forwards (`provider.ts` lines 1051-1067): the asset is built with
`type: 'ERC20'` and the token id placed in the asset data. -/
def transferErc721Request (starkKey : String) (input : TransferErc721Params) : TransferInput :=
  { fromSide := { starkKey := starkKey, vaultId := input.vaultId }
    toSide := input.toSide
    asset :=
      { type := AssetTypeTag.ERC20
        data :=
          { quantum := none
            tokenAddress := some input.tokenAddress
            tokenId := some input.tokenId } }
    amount := none
    nonce := input.nonce
    expirationTimestamp := input.expirationTimestamp
    condition := input.condition }

end StarkwareProvider

open StarkwareCrypto StarkwareProvider

/-- C8: For all non-negative integer amounts and positive quanta,
`quantizeAmount amount quantum` fails with a `NonIntegerQuantization`
condition if and only if `amount mod quantum ≠ 0`, and otherwise returns
exactly `amount / quantum`, never a rounded value. -/
theorem quantizeAmount_exact (amount quantum : Nat) (_hq : 0 < quantum) :
    (quantizeAmount amount quantum = CResult.err CryptoError.NonIntegerQuantization ↔
      amount % quantum ≠ 0) ∧
    (amount % quantum = 0 → quantizeAmount amount quantum = CResult.ok (amount / quantum)) := by
  unfold quantizeAmount
  refine ⟨⟨fun h hmod => ?_, fun hmod => ?_⟩, fun hmod => ?_⟩
  · rw [if_pos hmod] at h
    exact CResult.noConfusion h
  · rw [if_neg hmod]
  · rw [if_pos hmod]

/-- C8 witness: the ETH test vector's quantization `10^18 / 10^10 = 10^8`
is exact and succeeds. -/
theorem quantizeAmount_exact_witness :
    quantizeAmount 1000000000000000000 10000000000 = CResult.ok 100000000 :=
  ((quantizeAmount_exact 1000000000000000000 10000000000 (by decide)).2
    (by decide)).trans (by decide)

/-- C9: for every input, the asset object `transferErc721` constructs and
forwards to `transfer` has type field `ERC20` (with the token id placed in
the asset data), not `ERC721`. -/
theorem transferErc721_uses_erc20_tag (starkKey : String) (input : TransferErc721Params) :
    (transferErc721Request starkKey input).asset.type = AssetTypeTag.ERC20 ∧
    (transferErc721Request starkKey input).asset.type ≠ AssetTypeTag.ERC721 ∧
    (transferErc721Request starkKey input).asset.data.tokenId = some input.tokenId :=
  ⟨rfl, fun h => AssetTypeTag.noConfusion h, rfl⟩

/-- C5 counterexample: on the literal ETH transfer vector, the serialized
signature equals the repository's 65-byte literal, which differs from the
plain fixed-width concatenation of `r` and `s` claimed by the spec. -/
theorem serializeSignature_not_plain_concat :
    serializeSignature ⟨ethSigR, ethSigS, 1⟩ =
      "0x01df4e7bbad23da5e5266c2d724b5c892c9cc25cdb8a5c3371bac53013f3d5270715136cb5e9bf1f2733885d98cebded918e80f130ec85506e2779d364dd83a81c" ∧
    serializeSignature ⟨ethSigR, ethSigS, 1⟩ ≠ serializeSignatureSpec ethSigR ethSigS := by
  exact ⟨by decide, by decide⟩

/-- C5 amended: `serializeSignature` produces the fixed-width concatenation
of `r` and `s` (each zero-padded to the curve's 32-byte width) followed by
one recovery-parameter byte `0x1b + recoveryParam`, reproducing both
65-byte literal test vectors. -/
theorem serializeSignature_layout :
    (∀ sig : SignatureWithRecovery,
      serializeSignature sig =
        serializeSignatureSpec sig.r sig.s ++ padHex 2 (27 + sig.recoveryParam)) ∧
    serializeSignature ⟨ethSigR, ethSigS, 1⟩ =
      "0x01df4e7bbad23da5e5266c2d724b5c892c9cc25cdb8a5c3371bac53013f3d5270715136cb5e9bf1f2733885d98cebded918e80f130ec85506e2779d364dd83a81c" ∧
    serializeSignature ⟨erc20SigR, erc20SigS, 0⟩ =
      "0x00557b2fcb1a60536a4d2655b2c597d03607c44c7d7cb5afc3bc26a7750af57b006880b2e5857a31df9387071534e1459017c7da0608597fca6f64f0b82d9c401b" :=
  ⟨fun _ => rfl, by decide, by decide⟩

/-- C3: `verify` checks the magnitude bounds before any curve arithmetic,
failing with the named condition of the violated bound — digest
(`InvalidMessageHashLength`), `r` (`InvalidRLength`), `s`
(`InvalidSLength`), `w = s⁻¹` (`InvalidWLength`) — rather than returning
`false`; in particular a digest of `maxEcdsaVal + 1`, an `r` of
`maxEcdsaVal + 1`, or an `s` whose `w` equals `maxEcdsaVal + 1` raises
exactly that input's named condition. -/
theorem verify_bound_conditions {Pt : Type} (ops : CurveOps Pt) (G pub : Pt)
    (digest r s : Nat) :
    (maxEcdsaVal ≤ digest →
      verify ops G pub digest ⟨r, s⟩ = CResult.err CryptoError.InvalidMessageHashLength) ∧
    (digest < maxEcdsaVal → ¬ (1 ≤ r ∧ r < maxEcdsaVal) →
      verify ops G pub digest ⟨r, s⟩ = CResult.err CryptoError.InvalidRLength) ∧
    (digest < maxEcdsaVal → 1 ≤ r ∧ r < maxEcdsaVal → ¬ (1 ≤ s ∧ s < curveOrder) →
      verify ops G pub digest ⟨r, s⟩ = CResult.err CryptoError.InvalidSLength) ∧
    (digest < maxEcdsaVal → 1 ≤ r ∧ r < maxEcdsaVal → 1 ≤ s ∧ s < curveOrder →
      ¬ (1 ≤ modInv s curveOrder ∧ modInv s curveOrder < maxEcdsaVal) →
      verify ops G pub digest ⟨r, s⟩ = CResult.err CryptoError.InvalidWLength) ∧
    verify ops G pub (maxEcdsaVal + 1) ⟨1, 1⟩ =
      CResult.err CryptoError.InvalidMessageHashLength ∧
    verify ops G pub 1 ⟨maxEcdsaVal + 1, 1⟩ = CResult.err CryptoError.InvalidRLength ∧
    verify ops G pub 1 ⟨1, wOverflowS⟩ = CResult.err CryptoError.InvalidWLength ∧
    modInv wOverflowS curveOrder = maxEcdsaVal + 1 := by
  refine ⟨fun h1 => ?_, fun h1 h2 => ?_, fun h1 h2 h3 => ?_, fun h1 h2 h3 h4 => ?_,
    ?_, ?_, ?_, by decide⟩
  · simp only [verify]
    rw [if_pos h1]
  · simp only [verify]
    rw [if_neg (not_le.mpr h1), if_pos h2]
  · simp only [verify]
    rw [if_neg (not_le.mpr h1), if_neg (not_not_intro h2), if_pos h3]
  · simp only [verify]
    rw [if_neg (not_le.mpr h1), if_neg (not_not_intro h2), if_neg (not_not_intro h3),
      if_pos h4]
  · simp only [verify]
    rw [if_pos (by decide : maxEcdsaVal ≤ maxEcdsaVal + 1)]
  · simp only [verify]
    rw [if_neg (by decide : ¬ maxEcdsaVal ≤ 1),
      if_pos (by decide : ¬ (1 ≤ maxEcdsaVal + 1 ∧ maxEcdsaVal + 1 < maxEcdsaVal))]
  · simp only [verify]
    rw [if_neg (by decide : ¬ maxEcdsaVal ≤ 1),
      if_neg (not_not_intro (by decide : 1 ≤ (1 : Nat) ∧ 1 < maxEcdsaVal)),
      if_neg (not_not_intro (by decide : 1 ≤ wOverflowS ∧ wOverflowS < curveOrder)),
      if_pos (by decide :
        ¬ (1 ≤ modInv wOverflowS curveOrder ∧ modInv wOverflowS curveOrder < maxEcdsaVal))]

/-- C3 witness: the three named conditions raised at digest, `r`, and `w`
equal to `maxEcdsaVal + 1` on the concrete curve. -/
theorem verify_bound_conditions_witness :
    verify starkCurveOps starkGen testPub (maxEcdsaVal + 1) ⟨1, 1⟩ =
      CResult.err CryptoError.InvalidMessageHashLength ∧
    verify starkCurveOps starkGen testPub 1 ⟨maxEcdsaVal + 1, 1⟩ =
      CResult.err CryptoError.InvalidRLength ∧
    verify starkCurveOps starkGen testPub 1 ⟨1, wOverflowS⟩ =
      CResult.err CryptoError.InvalidWLength :=
  ⟨(verify_bound_conditions starkCurveOps starkGen testPub (maxEcdsaVal + 1) 1 1).1
      (by decide),
    (verify_bound_conditions starkCurveOps starkGen testPub 1 (maxEcdsaVal + 1) 1).2.1
      (by decide) (by decide),
    (verify_bound_conditions starkCurveOps starkGen testPub 1 1 wOverflowS).2.2.2.1
      (by decide) (by decide) (by decide) (by decide)⟩

/-- C7: for a curve point `(x, y)` (`y` canonical below `p`), decompressing
its compression recovers the point whenever the modular square-root
primitive returns either root of the curve equation; in particular
compressing the test public key yields the tag-2 pairing with `X`, and
decompressing that recovers `(X, Y)`. -/
theorem compress_decompress_roundtrip :
    (∀ (sqrtFn : Nat → Option Nat) (x y : Nat), y < fieldPrime →
      (sqrtFn ((pmul (pmul x x) x + pmul curveA x + curveB) % fieldPrime) = some y ∨
        sqrtFn ((pmul (pmul x x) x + pmul curveA x + curveB) % fieldPrime) =
          some (fieldPrime - y)) →
      decompress sqrtFn (compress (x, y)) = CResult.ok (x, y)) ∧
    compress (pubKeyX, pubKeyY) = (2, pubKeyX) ∧
    (∀ sqrtFn : Nat → Option Nat,
      sqrtFn ((pmul (pmul pubKeyX pubKeyX) pubKeyX + pmul curveA pubKeyX + curveB) %
          fieldPrime) = some pubKeyY →
      decompress sqrtFn (2, pubKeyX) = CResult.ok (pubKeyX, pubKeyY)) := by
  have hp2 : fieldPrime % 2 = 1 := by decide
  refine ⟨fun sqrtFn x y hy hsq => ?_, by decide, fun sqrtFn hsq => ?_⟩
  · by_cases hpar : y % 2 = 0
    · have hc : compress (x, y) = (2, x) := by simp [compress, hpar]
      rw [hc]
      rcases hsq with hsq | hsq
      · simp [decompress, hsq, hpar]
      · have hne : (fieldPrime - y) % 2 = 1 := by omega
        simp [decompress, hsq, hne, Nat.sub_sub_self (le_of_lt hy)]
    · have hpar1 : y % 2 = 1 := (Nat.mod_two_eq_zero_or_one y).resolve_left hpar
      have hc : compress (x, y) = (3, x) := by simp [compress, hpar]
      rw [hc]
      rcases hsq with hsq | hsq
      · simp [decompress, hsq, hpar1]
      · have hne : (fieldPrime - y) % 2 = 0 := by omega
        simp [decompress, hsq, hne, Nat.sub_sub_self (le_of_lt hy)]
  · simp [decompress, hsq, pubKeyY]

/-- C7 witness: the round trip evaluated on the test public key with a
square-root primitive returning its `Y` coordinate. -/
theorem compress_decompress_roundtrip_witness :
    decompress (fun _ => some pubKeyY) (compress (pubKeyX, pubKeyY)) =
      CResult.ok (pubKeyX, pubKeyY) :=
  compress_decompress_roundtrip.1 (fun _ => some pubKeyY) pubKeyX pubKeyY
    (by decide) (Or.inl rfl)

set_option maxHeartbeats 8000000

/-- C4 counterexample: the claim fails on the code for the modification
`s → n - s` of the repository's own 61-digit test vector: that in-range
modification of `s` leaves `verify` returning `true` (ECDSA negation
malleability), so not every in-range modification of a valid triple makes
`verify` return `false`. -/
theorem verify_tamper_counterexample :
    verify starkCurveOps starkGen testPub testMsgHash ⟨testR, testS⟩ = CResult.ok true ∧
    verify starkCurveOps starkGen testPub testMsgHash ⟨testR, curveOrder - testS⟩ =
      CResult.ok true ∧
    curveOrder - testS ≠ testS ∧
    1 ≤ curveOrder - testS ∧ curveOrder - testS < curveOrder :=
  ⟨by decide, by decide, by decide, by decide, by decide⟩

/-- C4 amended: on the repository's valid test-vector triple, each of the
single-component tamperings exercised by the repository's tests — adding 1
to the digest, to `r`, to `s`, or to the public key's x-coordinate — makes
`verify` return the boolean `false` (not an error); but tamper sensitivity
does not hold for every in-range modification, since `s → n - s` still
verifies. -/
theorem verify_tamper_tests :
    verify starkCurveOps starkGen testPub testMsgHash ⟨testR, testS⟩ = CResult.ok true ∧
    verify starkCurveOps starkGen testPub (testMsgHash + 1) ⟨testR, testS⟩ =
      CResult.ok false ∧
    verify starkCurveOps starkGen testPub testMsgHash ⟨testR + 1, testS⟩ =
      CResult.ok false ∧
    verify starkCurveOps starkGen testPub testMsgHash ⟨testR, testS + 1⟩ =
      CResult.ok false ∧
    verify starkCurveOps starkGen testPubTampered testMsgHash ⟨testR, testS⟩ =
      CResult.ok false :=
  ⟨by decide, by decide, by decide, by decide, by decide⟩

/-- C10: `sign` interprets the digest numerically, so signing a hex-string
digest is invariant under leading-zero padding, and the repository's test
digests of hex lengths 61 (with and without leading zeros), 62 and 63 are
all accepted. -/
theorem signHex_numeric_digest :
    (∀ {Pt : Type} (ops : CurveOps Pt) (G : Pt) (nonceOf : Nat → Nat → Nat)
      (privateKey : Nat) (msgHash : String),
      signHex ops G nonceOf privateKey ("00" ++ msgHash) =
        signHex ops G nonceOf privateKey msgHash) ∧
    isOk (signHex starkCurveOps starkGen (fun _ _ => 1) testPrivateKey
      "c465dd6b1bbffdb05442eb17f5ca38ad1aa78a6f56bf4415bdee219114a47") = true ∧
    isOk (signHex starkCurveOps starkGen (fun _ _ => 1) testPrivateKey
      "00c465dd6b1bbffdb05442eb17f5ca38ad1aa78a6f56bf4415bdee219114a47") = true ∧
    isOk (signHex starkCurveOps starkGen (fun _ _ => 1) testPrivateKey
      "c465dd6b1bbffdb05442eb17f5ca38ad1aa78a6f56bf4415bdee219114a47a") = true ∧
    isOk (signHex starkCurveOps starkGen (fun _ _ => 1) testPrivateKey
      "7465dd6b1bbffdb05442eb17f5ca38ad1aa78a6f56bf4415bdee219114a47a1") = true := by
  refine ⟨?_, by decide, by decide, by decide, by decide⟩
  intro Pt ops G nonceOf privateKey msgHash
  have hdata : ("00" ++ msgHash).data = '0' :: '0' :: msgHash.data := rfl
  unfold signHex parseHex
  rw [hdata]
  rfl

/-- Under the canonical group operations, fueled double-and-add agrees with
`nsmul` whenever the fuel covers the scalar's bit length. -/
theorem scalarMulAux_groupOps_eq_nsmul {P : Type} [AddCommGroup P] (xc : P → Nat) :
    ∀ (fuel k : Nat) (x : P), k < 2 ^ fuel →
      scalarMulAux (groupOps P xc) fuel k x = k • x := by
  intro fuel
  induction fuel with
  | zero =>
    intro k x hk
    have hk0 : k = 0 := by simpa using Nat.lt_one_iff.mp (by simpa using hk)
    subst hk0
    simp [scalarMulAux, groupOps]
  | succ fuel ih =>
    intro k x hk
    by_cases hk0 : k = 0
    · subst hk0
      simp [scalarMulAux, groupOps]
    · have hhalf : k / 2 < 2 ^ fuel := by
        have hpow : (2 : Nat) ^ (fuel + 1) = 2 * 2 ^ fuel := by ring
        omega
      have ihh := ih (k / 2) (x + x) hhalf
      unfold scalarMulAux
      rw [if_neg hk0]
      by_cases hpar : k % 2 = 1
      · rw [if_pos hpar]
        show x + scalarMulAux (groupOps P xc) fuel (k / 2) (x + x) = k • x
        rw [ihh, ← two_nsmul, ← mul_nsmul]
        have hk2 : k = 1 + 2 * (k / 2) := by omega
        calc x + (2 * (k / 2)) • x = 1 • x + (2 * (k / 2)) • x := by rw [one_nsmul]
          _ = (1 + 2 * (k / 2)) • x := (add_nsmul x 1 (2 * (k / 2))).symm
          _ = k • x := by rw [← hk2]
      · rw [if_neg hpar]
        show scalarMulAux (groupOps P xc) fuel (k / 2) (x + x) = k • x
        rw [ihh, ← two_nsmul, ← mul_nsmul]
        congr 1
        omega

/-- Under the canonical group operations, `scalarMul` is `nsmul`. -/
theorem scalarMul_groupOps_eq_nsmul {P : Type} [AddCommGroup P] (xc : P → Nat)
    (k : Nat) (x : P) : scalarMul (groupOps P xc) k x = k • x :=
  scalarMulAux_groupOps_eq_nsmul xc (k + 1) k x (by
    have h := Nat.lt_two_pow k
    have h2 : (2 : Nat) ^ k ≤ 2 ^ (k + 1) := Nat.pow_le_pow_right (by norm_num) (Nat.le_succ k)
    omega)

/-- Scalars congruent modulo the additive order of `G` act identically. -/
theorem nsmul_eq_of_mod_addOrderOf_eq {P : Type} [AddCommGroup P] (G : P) (m a b : Nat)
    (hord : addOrderOf G = m) (h : a % m = b % m) : a • G = b • G := by
  have hz : m • G = 0 := by
    rw [← hord]
    exact addOrderOf_nsmul_eq_zero G
  have key : ∀ c : Nat, c • G = (c % m) • G := by
    intro c
    conv_lhs => rw [← Nat.div_add_mod c m]
    rw [add_nsmul, mul_nsmul, hz]
    simp
  rw [key a, key b, h]

/-- A successful run of the signing retry loop returns the `r` and `s`
computed from the nonce of some attempt, both nonzero. -/
theorem signAttempts_ok_spec {Pt : Type} (ops : CurveOps Pt) (G : Pt)
    (nonceOf : Nat → Nat → Nat) (privateKey digest : Nat) :
    ∀ (fuel attempt : Nat) (sig : Signature),
      signAttempts ops G nonceOf privateKey digest attempt fuel = CResult.ok sig →
      ∃ i : Nat,
        sig.r = ops.xcoord (scalarMul ops (nonceOf digest i) G) % curveOrder ∧
        sig.s = modInv (nonceOf digest i) curveOrder *
          (digest + sig.r * privateKey) % curveOrder ∧
        sig.r ≠ 0 ∧ sig.s ≠ 0 := by
  intro fuel
  induction fuel with
  | zero =>
    intro attempt sig h
    exact absurd h (by simp [signAttempts])
  | succ fuel ih =>
    intro attempt sig h
    unfold signAttempts at h
    by_cases hc : ops.xcoord (scalarMul ops (nonceOf digest attempt) G) % curveOrder = 0
        ∨ modInv (nonceOf digest attempt) curveOrder *
            (digest + ops.xcoord (scalarMul ops (nonceOf digest attempt) G) % curveOrder *
              privateKey) % curveOrder = 0
    · rw [if_pos hc] at h
      exact ih (attempt + 1) sig h
    · rw [if_neg hc] at h
      injection h with h1
      subst h1
      push_neg at hc
      exact ⟨attempt, rfl, rfl, hc.1, hc.2⟩

/-- C2: for every valid private key `k` in `[1, n)` and digest `d` for
which signing succeeds with signature `(r, s)`, verification of that
signature against `publicKeyOf k` returns `true` — stated over any
commutative-group interpretation of the curve whose generator has additive
order `n`, with the in-range conditions on `r` and `w` that `sign`
guarantees on retry, and with the modular inverses assumed genuine (which
always holds because the curve order is prime). -/
theorem sign_verify_roundtrip {P : Type} [AddCommGroup P] [DecidableEq P]
    (xc : P → Nat) (G : P) (nonceOf : Nat → Nat → Nat) (k d r s : Nat)
    (_hk : 1 ≤ k ∧ k < curveOrder)
    (hord : addOrderOf G = curveOrder)
    (hnonce : ∀ i, modInv (nonceOf d i) curveOrder * nonceOf d i % curveOrder = 1)
    (hsign : sign (groupOps P xc) G nonceOf k d = CResult.ok ⟨r, s⟩)
    (hr : 1 ≤ r ∧ r < maxEcdsaVal)
    (hsinv : modInv s curveOrder * s % curveOrder = 1)
    (hw : 1 ≤ modInv s curveOrder ∧ modInv s curveOrder < maxEcdsaVal) :
    verify (groupOps P xc) G (publicKeyOf (groupOps P xc) G k) d ⟨r, s⟩ =
      CResult.ok true := by
  unfold sign at hsign
  by_cases hd : maxEcdsaVal ≤ d
  · rw [if_pos hd] at hsign
    exact absurd hsign (by simp)
  rw [if_neg hd] at hsign
  obtain ⟨i, hrEq, hsEq, hrNe, hsNe⟩ :=
    signAttempts_ok_spec (groupOps P xc) G nonceOf k d signRetryBound 0 ⟨r, s⟩ hsign
  have hsm : ∀ (a : Nat) (x : P), scalarMul (groupOps P xc) a x = a • x :=
    fun a x => scalarMul_groupOps_eq_nsmul xc a x
  have hrEqn : r = xc (nonceOf d i • G) % curveOrder := by
    rw [← hsm]
    exact hrEq
  have hsEqn : s = modInv (nonceOf d i) curveOrder * (d + r * k) % curveOrder := hsEq
  have hnpos : 0 < curveOrder := by decide
  have hslt : s < curveOrder := by
    rw [hsEqn]
    exact Nat.mod_lt _ hnpos
  have hs1 : 1 ≤ s := Nat.one_le_iff_ne_zero.mpr hsNe
  have hone : (1 : Nat) % curveOrder = 1 := Nat.mod_eq_of_lt (by decide)
  have hw1 : Nat.ModEq curveOrder (modInv s curveOrder * s) 1 := by
    unfold Nat.ModEq
    rw [hsinv, hone]
  have hk1 : Nat.ModEq curveOrder
      (modInv (nonceOf d i) curveOrder * nonceOf d i) 1 := by
    unfold Nat.ModEq
    rw [hnonce i, hone]
  have hs3 : Nat.ModEq curveOrder s
      (modInv (nonceOf d i) curveOrder * (d + r * k)) := by
    rw [hsEqn]
    exact Nat.mod_modEq _ _
  have hC1 : Nat.ModEq curveOrder (nonceOf d i * s) (d + r * k) := by
    have h1 : Nat.ModEq curveOrder (nonceOf d i * s)
        (nonceOf d i * (modInv (nonceOf d i) curveOrder * (d + r * k))) :=
      hs3.mul_left (nonceOf d i)
    have h2 : nonceOf d i * (modInv (nonceOf d i) curveOrder * (d + r * k)) =
        modInv (nonceOf d i) curveOrder * nonceOf d i * (d + r * k) := by ring
    have h3 : Nat.ModEq curveOrder
        (modInv (nonceOf d i) curveOrder * nonceOf d i * (d + r * k))
        (1 * (d + r * k)) := hk1.mul_right (d + r * k)
    rw [h2] at h1
    have h4 := h1.trans h3
    rw [one_mul] at h4
    exact h4
  have hC : Nat.ModEq curveOrder (modInv s curveOrder * (d + r * k)) (nonceOf d i) := by
    have h5 : Nat.ModEq curveOrder (modInv s curveOrder * (d + r * k))
        (modInv s curveOrder * (nonceOf d i * s)) := hC1.symm.mul_left _
    have h6 : modInv s curveOrder * (nonceOf d i * s) =
        nonceOf d i * (modInv s curveOrder * s) := by ring
    have h7 : Nat.ModEq curveOrder (nonceOf d i * (modInv s curveOrder * s))
        (nonceOf d i * 1) := hw1.mul_left (nonceOf d i)
    rw [h6] at h5
    have h8 := h5.trans h7
    rw [mul_one] at h8
    exact h8
  have hA : Nat.ModEq curveOrder
      (d * modInv s curveOrder % curveOrder + k * (r * modInv s curveOrder % curveOrder))
      (d * modInv s curveOrder + k * (r * modInv s curveOrder)) :=
    (Nat.mod_modEq _ _).add ((Nat.mod_modEq _ _).mul_left k)
  have hB : d * modInv s curveOrder + k * (r * modInv s curveOrder) =
      modInv s curveOrder * (d + r * k) := by ring
  have hmod : (d * modInv s curveOrder % curveOrder +
      k * (r * modInv s curveOrder % curveOrder)) % curveOrder =
      nonceOf d i % curveOrder := by
    have h9 := hA
    rw [hB] at h9
    exact h9.trans hC
  have hpt : (d * modInv s curveOrder % curveOrder) • G +
      (k * (r * modInv s curveOrder % curveOrder)) • G = nonceOf d i • G := by
    rw [← add_nsmul]
    exact nsmul_eq_of_mod_addOrderOf_eq G curveOrder _ _ hord hmod
  have hfinal : xc ((groupOps P xc).add
      (scalarMul (groupOps P xc) (d * modInv s curveOrder % curveOrder) G)
      (scalarMul (groupOps P xc) (r * modInv s curveOrder % curveOrder)
        (publicKeyOf (groupOps P xc) G k))) % curveOrder = r := by
    rw [publicKeyOf, hsm, hsm, hsm]
    show xc ((d * modInv s curveOrder % curveOrder) • G +
      (r * modInv s curveOrder % curveOrder) • (k • G)) % curveOrder = r
    rw [← mul_nsmul, hpt]
    exact hrEqn.symm
  simp only [verify]
  rw [if_neg hd, if_neg (not_not_intro hr), if_neg (not_not_intro ⟨hs1, hslt⟩),
    if_neg (not_not_intro hw)]
  exact congrArg CResult.ok (decide_eq_true hfinal)

/-- C2 witness: the round trip evaluated in the cyclic group `ZMod n` with
generator `1`, private key `2`, digest `5` and nonce `3`. -/
theorem sign_verify_roundtrip_witness :
    verify (groupOps (ZMod curveOrder) ZMod.val) 1
      (publicKeyOf (groupOps (ZMod curveOrder) ZMod.val) 1 2) 5
      ⟨3, 1206167596222043737899107594365023368508914583905362496384693152628170955198⟩ =
      CResult.ok true :=
  sign_verify_roundtrip ZMod.val 1 (fun _ _ => 3) 2 5 3
    1206167596222043737899107594365023368508914583905362496384693152628170955198
    (by decide) (ZMod.addOrderOf_one curveOrder)
    (fun _ => (by decide : modInv 3 curveOrder * 3 % curveOrder = 1)) (by decide)
    (by decide) (by decide) (by decide)
